import Mathlib

/-!
Verification development for the fork-activity report generator
(`scripts/gather_activity.py`).  The script walks the fork tree of a GitHub
repository, filters forks that have no commits ahead, enriches each surviving
fork with metadata, deduplicates the records by full name and renders a static
HTML report.

The embedding below models the script's pure data flow.  HTTP requests are
modelled by an environment of functions returning `Except Err`; a raised
`requests.HTTPError` (from `raise_for_status`) or a `TypeError` corresponds to
the `.error` case, which aborts the run exactly as an uncaught Python
exception does.  Timestamps are modelled at second granularity (the script
parses commit dates with second precision).
-/

namespace GatherActivity

/-- UTC timestamp at second granularity, as carried by `datetime` values in
the script (tz-aware, UTC). -/
structure DateTime where
  y : Nat
  mo : Nat
  d : Nat
  h : Nat
  mi : Nat
  s : Nat
deriving DecidableEq, Repr

/-- Proleptic-Gregorian leap-year test, as used by `datetime`/`dateutil`. -/
def isLeap (y : Nat) : Bool := y % 4 = 0 && (y % 100 ≠ 0 || y % 400 = 0)

/-- Length of month `mo` of year `y` (0 for an out-of-range month). -/
def daysInMonth (y mo : Nat) : Nat :=
  match mo with
  | 1 => 31
  | 2 => if isLeap y then 29 else 28
  | 3 => 31
  | 4 => 30
  | 5 => 31
  | 6 => 30
  | 7 => 31
  | 8 => 31
  | 9 => 30
  | 10 => 31
  | 11 => 30
  | 12 => 31
  | _ => 0

/-- Days of year `y` that precede month `mo`. -/
def daysBeforeMonth (y : Nat) : Nat → Nat
  | 0 => 0
  | 1 => 0
  | mo + 1 => daysBeforeMonth y mo + daysInMonth y mo

/-- Number of leap years in `[1, y]`. -/
def leapsBefore (y : Nat) : Nat := y / 4 - y / 100 + y / 400

/-- Days strictly before January 1 of year `y` (counting from year 1). -/
def daysBeforeYear (y : Nat) : Nat := 365 * (y - 1) + leapsBefore (y - 1)

/-- Day number (Rata Die, 0-based) of a date. -/
def rataDie (dt : DateTime) : Nat :=
  daysBeforeYear dt.y + daysBeforeMonth dt.y dt.mo + (dt.d - 1)

/-- Seconds since the epoch of year 1; `datetime` comparison and subtraction
are comparison and subtraction of this quantity. -/
def toSec (dt : DateTime) : Nat :=
  86400 * rataDie dt + 3600 * dt.h + 60 * dt.mi + dt.s

/-- `datetime` strict comparison. -/
def dtLt (a b : DateTime) : Bool := toSec a < toSec b

/-- `datetime` non-strict comparison. -/
def dtLe (a b : DateTime) : Bool := toSec a ≤ toSec b

/-- A structurally valid (in-range) `datetime` value. -/
def ValidDT (dt : DateTime) : Prop :=
  1 ≤ dt.y ∧ 1 ≤ dt.mo ∧ dt.mo ≤ 12 ∧ 1 ≤ dt.d ∧ dt.d ≤ daysInMonth dt.y dt.mo ∧
    dt.h < 24 ∧ dt.mi < 60 ∧ dt.s < 60

instance (dt : DateTime) : Decidable (ValidDT dt) := by
  unfold ValidDT; infer_instance

/-- Zero-based month index `y*12 + (mo-1)` of a date. -/
def ymIdx (dt : DateTime) : Nat := dt.y * 12 + dt.mo - 1

/-- `relativedelta.__radd__` restricted to a year/month shift: move by `m`
months, clamping the day-of-month to the target month's length. -/
def addMonths (dt : DateTime) (m : Int) : DateTime :=
  let ymn : Nat := ((dt.y * 12 + dt.mo - 1 : Nat) + m).toNat
  let y := ymn / 12
  let mo := ymn % 12 + 1
  { y := y, mo := mo, d := min dt.d (daysInMonth y mo),
    h := dt.h, mi := dt.mi, s := dt.s }

/-- Raw month difference `(y1*12+mo1) - (y2*12+mo2)` computed by
`relativedelta.__init__`. -/
def monthsRaw (dt1 dt2 : DateTime) : Int :=
  ((dt1.y : Int) - dt2.y) * 12 + ((dt1.mo : Int) - dt2.mo)

/-- The `while compare(dt1, dtm)` loop of `relativedelta.__init__` in the
`dt1 >= dt2` case: decrement the month count while overshooting. -/
def adjustDown (dt1 dt2 : DateTime) : Nat → Int → Int
  | 0, m => m
  | fuel + 1, m => if dtLt dt1 (addMonths dt2 m) then adjustDown dt1 dt2 fuel (m - 1) else m

/-- The same loop in the `dt1 < dt2` case: increment while undershooting. -/
def adjustUp (dt1 dt2 : DateTime) : Nat → Int → Int
  | 0, m => m
  | fuel + 1, m => if dtLt (addMonths dt2 m) dt1 then adjustUp dt1 dt2 fuel (m + 1) else m

/-- Final month count computed by `relativedelta(dt1, dt2)`. -/
def rdMonths (dt1 dt2 : DateTime) : Int :=
  let m0 := monthsRaw dt1 dt2
  if dtLt dt1 dt2 then adjustUp dt1 dt2 (m0.natAbs + 1) m0
  else adjustDown dt1 dt2 (m0.natAbs + 1) m0

/-- `relativedelta._set_months`: split a month count into years and months. -/
def setMonths (m : Int) : Int × Int :=
  if 11 < m.natAbs then
    let sg : Int := if 0 ≤ m then 1 else -1
    ((m * sg) / 12 * sg, (m * sg) % 12 * sg)
  else (0, m)

/-- The `(years, months, days)` components of `relativedelta(dt1, dt2)`. -/
def rdelta (dt1 dt2 : DateTime) : Int × Int × Int :=
  let m := rdMonths dt1 dt2
  let ym := setMonths m
  let delta : Int := (toSec dt1 : Int) - (toSec (addMonths dt2 m) : Int)
  (ym.1, ym.2, delta.fdiv 86400)

/-- `relative_time_from_now`: render the coarsest non-zero unit of the
relative delta between `now` and `date`. -/
def relative_time_from_now (now date : DateTime) : String :=
  let r := rdelta now date
  if 0 < r.1 then s!"{r.1} years ago"
  else if 0 < r.2.1 then s!"{r.2.1} months ago"
  else if 0 < r.2.2 then s!"{r.2.2} days ago"
  else ("today")

/-- Identifier of a repository: owner login and repository name. -/
structure RepoId where
  owner : String
  name : String
deriving DecidableEq, Repr

/-- The fields of a fork object from the fork-listing endpoint that the
script reads: `owner.login`, `name`, `full_name`, `html_url`. -/
structure ForkObj where
  login : String
  name : String
  full_name : String
  html_url : String
deriving DecidableEq, Repr

/-- A commit object from the commit-listing endpoint: its SHA and its
(already parsed) committer date. -/
structure Commit where
  sha : String
  date : DateTime
deriving DecidableEq, Repr

/-- An uncaught Python exception: an `HTTPError` from `raise_for_status`
or a `TypeError` (e.g. `relativedelta` applied to `None`). -/
inductive Err
  | http
  | typeError
deriving DecidableEq, Repr

/-- The remote API as seen by one run: every request the script can make,
answered as data or as a fatal error.  `releaseLatest` returns a raw status
code and tag because `get_repo_info` checks the status itself instead of
calling `raise_for_status`. -/
structure Env where
  now : DateTime
  default_branch : RepoId → Except Err String
  description : RepoId → Except Err String
  stars : RepoId → Except Err Int
  forksPages : RepoId → Except Err (List (List ForkObj))
  commitsPages : RepoId → Except Err (List (List Commit))
  openIssues : RepoId → Except Err Int
  releaseLatest : RepoId → Nat × String
  compare : RepoId → String → RepoId → String → Except Err (Nat × Nat)

/-- A Python value that is either an `int` or a `str` (the script rebinds
`open_issues_count` from an int to the string sentinel `"-"`). -/
inductive Val
  | int (i : Int)
  | str (s : String)
deriving DecidableEq, Repr

/-- How an f-string renders a `Val`. -/
def Val.render : Val → String
  | .int i => toString i
  | .str s => s

/-- The per-fork dictionary appended by `gather_activity`. -/
structure ForkRecord where
  fork : ForkObj
  description : String
  stars : Int
  commits_ahead : Nat
  commits_behind : Nat
  last_commit_date : String
  open_issues_count : Val
  last_release_number : String
  path : String
deriving DecidableEq, Repr

/-- The repository a fork object denotes. -/
def refOf (f : ForkObj) : RepoId := ⟨f.login, f.name⟩

/-- The `while url:` pagination loop of `get_forks`: request the current
page, append its items, follow the `next` link if one is present (that is,
if further pages remain in the chain).  Returns the accumulated items and
the number of requests made. -/
def fetchLoop {α : Type} : List (List α) → List α × Nat
  | [] => ([], 0)
  | page :: rest =>
    match rest with
    | [] => (page, 1)
    | next :: more =>
      let r := fetchLoop (next :: more)
      (page ++ r.1, r.2 + 1)

/-- The body of the `for commit in commit_data:` loop of `get_commits_info`:
add the SHA to the set, keep the maximum commit date. -/
def commitStep (acc : List String × Option DateTime) (c : Commit) :
    List String × Option DateTime :=
  (if c.sha ∈ acc.1 then acc.1 else acc.1 ++ [c.sha],
   match acc.2 with
   | none => some c.date
   | some l => if dtLt l c.date then some c.date else some l)

/-- The `while url:` pagination loop of `get_commits_info`: request the
current page, fold its commits into the accumulator, follow the `next` link
if one is present.  Returns the final accumulator and the number of requests
made. -/
def commitsLoop : List (List Commit) → (List String × Option DateTime) →
    (List String × Option DateTime) × Nat
  | [], acc => (acc, 0)
  | page :: rest, acc =>
    let acc1 := page.foldl commitStep acc
    match rest with
    | [] => (acc1, 1)
    | next :: more =>
      let r := commitsLoop (next :: more) acc1
      (r.1, r.2 + 1)

/-- `get_default_branch`. -/
def get_default_branch (env : Env) (r : RepoId) : Except Err String :=
  env.default_branch r

/-- `get_repo_description` (absent description already normalised to `""`). -/
def get_repo_description (env : Env) (r : RepoId) : Except Err String :=
  env.description r

/-- `get_repo_stars`. -/
def get_repo_stars (env : Env) (r : RepoId) : Except Err Int :=
  env.stars r

/-- `get_forks`: paginate the fork listing. -/
def get_forks (env : Env) (r : RepoId) : Except Err (List ForkObj) :=
  match env.forksPages r with
  | .error e => .error e
  | .ok pages => .ok (fetchLoop pages).1

/-- `get_commits_info`: paginate the commit listing, collecting the set of
SHAs and the most recent commit date (or `None` when there are no commits). -/
def get_commits_info (env : Env) (r : RepoId) :
    Except Err (List String × Option DateTime) :=
  match env.commitsPages r with
  | .error e => .error e
  | .ok pages => .ok (commitsLoop pages ([], none)).1

/-- `get_commits_ahead_behind`: resolve both default branches, then compare
`parent_default...fork_owner:fork_default` on the parent repository. -/
def get_commits_ahead_behind (env : Env) (parent fork : RepoId) :
    Except Err (Nat × Nat) :=
  match get_default_branch env parent with
  | .error e => .error e
  | .ok pb =>
    match get_default_branch env fork with
    | .error e => .error e
    | .ok fb => env.compare parent pb fork fb

/-- `get_repo_info`: the open-issue count (fatal on failure), then the
latest release, where any status other than 200 yields the sentinel `"-"`. -/
def get_repo_info (env : Env) (r : RepoId) : Except Err (Int × String) :=
  match env.openIssues r with
  | .error e => .error e
  | .ok issues =>
    let rel := env.releaseLatest r
    .ok (issues, if rel.1 = 200 then rel.2 else ("-"))

/-- Calling `relative_time_from_now` on a possibly-`None` date: Python
raises a `TypeError` inside `relativedelta` when the date is `None`. -/
def relOrError (now : DateTime) (d : Option DateTime) : Except Err String :=
  match d with
  | some dt => .ok (relative_time_from_now now dt)
  | none => .error Err.typeError

/-- The caller-side normalisation `if open_issues_count == 0:
open_issues_count = "-"` (used both in `gather_activity` and in `main`). -/
def normalizeIssues (i : Int) : Val :=
  if i = 0 then Val.str ("-") else Val.int i

/-- The record-field computation of `gather_activity` after the inclusion
filter: the (dead) sentinel branch guarded by
`commits_ahead == 0 and commits_behind == 0`, and the live branch that
renders the relative commit date and fetches issue/release info. -/
def buildFields (env : Env) (fref : RepoId) (ahead behind : Nat)
    (lastDate : Option DateTime) : Except Err (String × Val × String) :=
  if ahead = 0 ∧ behind = 0 then .ok ("-", Val.str ("-"), "-")
  else
    match relOrError env.now lastDate with
    | .error e => .error e
    | .ok rel =>
      match get_repo_info env fref with
      | .error e => .error e
      | .ok ir => .ok (rel, normalizeIssues ir.1, ir.2)

/-- The `for fork in forks:` loop of `gather_activity`: probe each fork
(commit info, then divergence against `parent`), skip it entirely when
`commits_ahead == 0` (`continue`), otherwise build its record, recurse into
its own forks with the fork as the new parent (`recur`, the call at
`depth + 1`), and keep going. -/
def gatherLoop (env : Env)
    (recur : RepoId → RepoId → String → Except Err (List ForkRecord))
    (parent : RepoId) (parentPath : String) :
    List ForkObj → Except Err (List ForkRecord)
  | [] => .ok []
  | f :: rest =>
    match get_commits_info env (refOf f) with
    | .error e => .error e
    | .ok ci =>
      match get_commits_ahead_behind env parent (refOf f) with
      | .error e => .error e
      | .ok ab =>
        if ab.1 = 0 then gatherLoop env recur parent parentPath rest
        else
          match buildFields env (refOf f) ab.1 ab.2 ci.2 with
          | .error e => .error e
          | .ok fields =>
            match get_repo_description env (refOf f) with
            | .error e => .error e
            | .ok descr =>
              match get_repo_stars env (refOf f) with
              | .error e => .error e
              | .ok st =>
                let path := parentPath ++ "/" ++ f.login ++ "/" ++ f.name
                let record : ForkRecord :=
                  ⟨f, descr, st, ab.1, ab.2, fields.1, fields.2.1, fields.2.2, path⟩
                match recur (refOf f) (refOf f) path with
                | .error e => .error e
                | .ok sub =>
                  match gatherLoop env recur parent parentPath rest with
                  | .error e => .error e
                  | .ok restRecs => .ok (record :: (sub ++ restRecs))

/-- `gather_activity`, with the remaining recursion budget
`fuel = max_depth + 1 - depth` made explicit: at fuel 0 (`depth > max_depth`)
return `[]`, otherwise list the forks of `current` and run the fork loop,
whose recursive calls descend with one unit of fuel less. -/
def gatherFuel (env : Env) : Nat → RepoId → RepoId → String →
    Except Err (List ForkRecord)
  | 0, _, _, _ => .ok []
  | fuel + 1, parent, current, parentPath =>
    match get_forks env current with
    | .error e => .error e
    | .ok forks => gatherLoop env (gatherFuel env fuel) parent parentPath forks

/-- `gather_activity(parent_owner, parent_repo, owner, repo, token, depth,
max_depth, parent_path)`. -/
def gather_activity (env : Env) (parent current : RepoId)
    (depth max_depth : Nat) (parent_path : String) :
    Except Err (List ForkRecord) :=
  gatherFuel env (max_depth + 1 - depth) parent current parent_path

/-- The dictionary key used for deduplication. -/
def fullNameOf (r : ForkRecord) : String := r.fork.full_name

/-- Assignment `d[k] = v` on an insertion-ordered dictionary: replace the
value in place when the key exists, otherwise append. -/
def dictInsert : List (String × ForkRecord) → String → ForkRecord →
    List (String × ForkRecord)
  | [], k, v => [(k, v)]
  | kv :: rest, k, v =>
    if kv.1 = k then (kv.1, v) :: rest else kv :: dictInsert rest k v

/-- `{activity['fork']['full_name']: activity for activity in
fork_activity}.values()`. -/
def dedupByFullName (l : List ForkRecord) : List ForkRecord :=
  (l.foldl (fun d r => dictInsert d (fullNameOf r) r) []).map Prod.snd

/-- Month abbreviation used by `strftime("%b")`. -/
def monthAbbrev : Nat → String
  | 1 => "Jan"
  | 2 => "Feb"
  | 3 => "Mar"
  | 4 => "Apr"
  | 5 => "May"
  | 6 => "Jun"
  | 7 => "Jul"
  | 8 => "Aug"
  | 9 => "Sep"
  | 10 => "Oct"
  | 11 => "Nov"
  | 12 => "Dec"
  | _ => ""

/-- Two-digit zero padding used by `strftime("%d")`. -/
def pad2 (n : Nat) : String := if n < 10 then ("0" ++ toString n) else toString n

/-- `datetime.now(timezone.utc).strftime("%d %b %Y")`. -/
def strftimeDMY (dt : DateTime) : String :=
  pad2 dt.d ++ " " ++ monthAbbrev dt.mo ++ " " ++ toString dt.y

/-- `path.count('/')`, the render depth of a record. -/
def countSlashes (s : String) : Nat := s.toList.count '/'

/-- `"&nbsp;" * n`. -/
def nbspIndent (n : Nat) : String := String.join (List.replicate n ("&nbsp;"))

/-- The stars badge, rendered only when `stars > 1`. -/
def starsBadge (stars : Int) : String :=
  if 1 < stars then
    s!"<img src=\"https://img.shields.io/badge/stars-{stars}-brightgreen\" alt=\"Stars\">"
  else ("")

/-- The static page header of `generate_html` (title, CSS, table header). -/
def htmlHeader : String :=
  "\n    <html>\n    <head>\n        <title>Fork Activity</title>\n        <style>\n            table \x7b\n                width: 100%;\n                border-collapse: collapse;\n            \x7d\n            th, td \x7b\n                border: 1px solid black;\n                padding: 8px;\n                text-align: left;\n                vertical-align: top;\n            \x7d\n            th \x7b\n                background-color: #f2f2f2;\n            \x7d\n            .small-font \x7b\n                font-size: small;\n                padding-left: 20px; /* Indent the description more to the right */\n            \x7d\n            footer \x7b\n                margin-top: 20px;\n                font-size: small;\n                text-align: center;\n            \x7d\n        </style>\n    </head>\n    <body>\n        <h1>Fork Activity</h1>\n        <table>\n            <tr>\n                <th>Repository</th>\n                <th>Commits Ahead</th>\n                <th>Commits Behind</th>\n                <th>Last Commit</th>\n                <th>Open Issues</th>\n                <th>Last Release</th>\n            </tr>\n    "

/-- `add_fork_to_html`: the row pair rendered for one fork record. -/
def add_fork_to_html (activity : ForkRecord) (depth : Nat) : String :=
  let repo_url := activity.fork.html_url
  let repo_name := activity.fork.full_name
  let descr := activity.description
  let commits_ahead := activity.commits_ahead
  let commits_behind := activity.commits_behind
  let last_commit_date := activity.last_commit_date
  let open_issues_count := (activity.open_issues_count).render
  let last_release_number := activity.last_release_number
  let indent := nbspIndent (depth * 4)
  let stars_badge := starsBadge activity.stars
  "<tr>" ++
    s!"<td>{indent}<a href=\"{repo_url}\" target=\"_blank\">{repo_name}</a> {stars_badge}</td>" ++
    s!"<td>{commits_ahead}</td>" ++
    s!"<td>{commits_behind}</td>" ++
    s!"<td>{last_commit_date}</td>" ++
    s!"<td>{open_issues_count}</td>" ++
    s!"<td>{last_release_number}</td>" ++
    "</tr>" ++
    s!"<tr><td colspan=\"6\" class=\"small-font\">{indent}&nbsp;&nbsp;&nbsp;&nbsp;{descr}</td></tr>"

/-- The parent row block of `generate_html`. -/
def parentBlock (parent_repo_url parent_repo parent_stars_badge
    parent_last_commit_relative : String) (parent_open_issues : Val)
    (parent_last_release parent_description : String) : String :=
  let issues := parent_open_issues.render
  "\n            <tr>\n                " ++
    s!"<td><a href=\"{parent_repo_url}\" target=\"_blank\">{parent_repo}</a> {parent_stars_badge}</td>" ++
    "\n                <td>-</td>\n                <td>-</td>\n                " ++
    s!"<td>{parent_last_commit_relative}</td>" ++
    s!"\n                <td>{issues}</td>" ++
    s!"\n                <td>{parent_last_release}</td>" ++
    "\n            </tr>\n            " ++
    s!"<tr><td colspan=\"6\" class=\"small-font\">{parent_description}</td></tr>\n    "

/-- The page footer of `generate_html`, carrying the generation date. -/
def htmlFooter (current_date : String) : String :=
  "\n        </table>\n        <footer>\n            Generated by <a href=\"https://github.com/DNA-styx/HLStatsX-Fork-Activity\" target=\"_blank\">https://github.com/DNA-styx/HLStatsX-Fork-Activity</a>, last updated " ++
    current_date ++ ".\n        </footer>\n    </body>\n    </html>\n    "

/-- `generate_html`: build the document (rendering the parent's relative
commit time and requesting its star count on the way) and, only when
everything succeeded, write it to `public/index.html`.  The returned list is
the files written. -/
def generate_html (env : Env) (fork_activity : List ForkRecord)
    (parent_repo : String) (_parent_commits : Nat)
    (parent_last_commit_date : Option DateTime) (parent_open_issues : Val)
    (parent_last_release parent_description : String) :
    Except Err (List (String × String)) :=
  let current_date := strftimeDMY env.now
  let parent_repo_url := "https://github.com/" ++ parent_repo
  match relOrError env.now parent_last_commit_date with
  | .error e => .error e
  | .ok parent_last_commit_relative =>
    let parts := parent_repo.splitOn ("/")
    match get_repo_stars env ⟨parts.getD 0 (""), parts.getD 1 ("")⟩ with
    | .error e => .error e
    | .ok parent_stars =>
      let parent_stars_badge := starsBadge parent_stars
      let rows := String.join (fork_activity.map
        (fun a => add_fork_to_html a (countSlashes a.path)))
      let html := htmlHeader ++
        parentBlock parent_repo_url parent_repo parent_stars_badge
          parent_last_commit_relative parent_open_issues parent_last_release
          parent_description ++
        rows ++ htmlFooter current_date
      .ok [("public/index.html", html)]

/-- The hardcoded root repository of `main`. -/
def rootRepo : RepoId := ⟨"NomisCZ", "hlstatsx-community-edition"⟩

/-- `main`: root metadata, tree walk at `max_depth=2`, deduplication,
rendering.  Produces the list of files written, or the first error. -/
def main (env : Env) : Except Err (List (String × String)) :=
  match get_repo_description env rootRepo with
  | .error e => .error e
  | .ok parent_description =>
    match get_commits_info env rootRepo with
    | .error e => .error e
    | .ok pc =>
      match get_repo_info env rootRepo with
      | .error e => .error e
      | .ok pir =>
        let parent_open_issues := normalizeIssues pir.1
        match gather_activity env rootRepo rootRepo 0 2 ("") with
        | .error e => .error e
        | .ok fork_activity =>
          let unique_activity := dedupByFullName fork_activity
          generate_html env unique_activity
            (rootRepo.owner ++ "/" ++ rootRepo.name) pc.1.length pc.2
            parent_open_issues pir.2 parent_description

/-- The files on disk after a run: written only when `main` succeeds. -/
def filesWritten (env : Env) : List (String × String) :=
  match main env with
  | .ok ws => ws
  | .error _ => []

/-- Day number of the first day of the month with zero-based month index
`n` (year `n / 12`, month `n % 12 + 1`). -/
def mStart (n : Nat) : Nat :=
  daysBeforeYear (n / 12) + daysBeforeMonth (n / 12) (n % 12 + 1)

/-- A fixed "now" used for concrete relative-time checks: 2026-10-12 UTC. -/
def now0 : DateTime := ⟨2026, 10, 12, 0, 0, 0⟩

/-- Exactly 400 days before `now0`: 2025-09-07 UTC. -/
def date400 : DateTime := ⟨2025, 9, 7, 0, 0, 0⟩

/-- Exactly 10 days before `now0`: 2026-10-02 UTC. -/
def date10 : DateTime := ⟨2026, 10, 2, 0, 0, 0⟩

/-- Provenance of a record emitted by the tree walk, together with the
repository `p` the record's divergence was computed against: a record either
belongs to a direct fork of `current` (whose divergence parent is the walk's
`parent` argument), or lies in the subtree of a direct fork `f` that passed
the inclusion filter, in which case the recursive walk runs with `f` as both
parent and current. -/
inductive EmitParent (env : Env) :
    Nat → RepoId → RepoId → String → ForkRecord → RepoId → Prop
  | direct {fuel : Nat} {parent current : RepoId} {parentPath : String}
      {forks : List ForkObj} {f : ForkObj} {ci : List String × Option DateTime}
      {ab : Nat × Nat} {fields : String × Val × String} {descr : String}
      {st : Int} :
      get_forks env current = .ok forks → f ∈ forks →
      get_commits_info env (refOf f) = .ok ci →
      get_commits_ahead_behind env parent (refOf f) = .ok ab →
      ab.1 ≠ 0 →
      buildFields env (refOf f) ab.1 ab.2 ci.2 = .ok fields →
      get_repo_description env (refOf f) = .ok descr →
      get_repo_stars env (refOf f) = .ok st →
      EmitParent env (fuel + 1) parent current parentPath
        ⟨f, descr, st, ab.1, ab.2, fields.1, fields.2.1, fields.2.2,
          parentPath ++ "/" ++ f.login ++ "/" ++ f.name⟩ parent
  | nested {fuel : Nat} {parent current : RepoId} {parentPath : String}
      {forks : List ForkObj} {f : ForkObj} {ab : Nat × Nat} {r : ForkRecord}
      {p : RepoId} :
      get_forks env current = .ok forks → f ∈ forks →
      get_commits_ahead_behind env parent (refOf f) = .ok ab →
      ab.1 ≠ 0 →
      EmitParent env fuel (refOf f) (refOf f)
        (parentPath ++ "/" ++ f.login ++ "/" ++ f.name) r p →
      EmitParent env (fuel + 1) parent current parentPath r p

/-! ### Concrete test environments -/

/-- A single fork of the root repository, used by concrete runs. -/
def forkF : ForkObj := ⟨"alice", "hlstatsx-ce", "alice/hlstatsx-ce", "https://github.com/alice/hlstatsx-ce"⟩

/-- A small environment on which the whole pipeline succeeds: the root has
one fork (3 commits ahead), every repository has one commit dated `now0`,
zero open issues and no published release (404). -/
def envSmall : Env where
  now := now0
  default_branch := fun _ => .ok ("main")
  description := fun _ => .ok ("test fork")
  stars := fun _ => .ok 0
  forksPages := fun r => if r = rootRepo then .ok [[forkF]] else .ok [[]]
  commitsPages := fun _ => .ok [[⟨"c1", now0⟩]]
  openIssues := fun _ => .ok 0
  releaseLatest := fun _ => (404, "")
  compare := fun _ _ _ _ => .ok (3, 0)

/-- The record the tree walk emits for `forkF` under `envSmall`. -/
def recSmall : ForkRecord :=
  ⟨forkF, "test fork", 0, 3, 0, "today", Val.str ("-"), "-", "/alice/hlstatsx-ce"⟩

/-- Depth-0 fork for the divergence counterexample. -/
def forkA : ForkObj := ⟨"a", "fa", "a/fa", "https://github.com/a/fa"⟩

/-- Depth-1 fork (a fork of `forkA`) for the divergence counterexample. -/
def forkB : ForkObj := ⟨"b", "fb", "b/fb", "https://github.com/b/fb"⟩

/-- Environment where the fork-of-fork `forkB` diverges from its immediate
parent `forkA` by (2, 3) but from the root by (5, 7): the stored record
reveals which base the code actually compares against. -/
def envC2 : Env where
  now := now0
  default_branch := fun _ => .ok ("main")
  description := fun _ => .ok ("d")
  stars := fun _ => .ok 0
  forksPages := fun r =>
    if r = rootRepo then .ok [[forkA]]
    else if r = refOf forkA then .ok [[forkB]]
    else .ok [[]]
  commitsPages := fun _ => .ok [[⟨"c1", now0⟩]]
  openIssues := fun _ => .ok 2
  releaseLatest := fun _ => (200, "v1")
  compare := fun p _ f _ =>
    if p = rootRepo ∧ f = refOf forkA then .ok (1, 0)
    else if p = refOf forkA ∧ f = refOf forkB then .ok (2, 3)
    else if p = rootRepo ∧ f = refOf forkB then .ok (5, 7)
    else .ok (0, 0)

/-- Record emitted for `forkA` under `envC2`. -/
def recC2A : ForkRecord :=
  ⟨forkA, "d", 0, 1, 0, "today", Val.int 2, "v1", "/a/fa"⟩

/-- Record emitted for `forkB` under `envC2`: divergence (2, 3), i.e.
relative to `forkA`, not the root's (5, 7). -/
def recC2B : ForkRecord :=
  ⟨forkB, "d", 0, 2, 3, "today", Val.int 2, "v1", "/a/fa/b/fb"⟩

/-- First depth-0 fork for the deduplication counterexample. -/
def forkA1 : ForkObj := ⟨"a1", "fork", "a1/fork", "https://github.com/a1/fork"⟩

/-- Second depth-0 fork for the deduplication counterexample. -/
def forkA2 : ForkObj := ⟨"a2", "fork", "a2/fork", "https://github.com/a2/fork"⟩

/-- A fork listed under both `forkA1` and `forkA2`, so the walk emits two
records with the same full name but different paths. -/
def forkBoth : ForkObj := ⟨"bob", "fork", "bob/fork", "https://github.com/bob/fork"⟩

/-- Environment where the same repository `bob/fork` is reachable through
two distinct traversal paths. -/
def envC3 : Env where
  now := now0
  default_branch := fun _ => .ok ("main")
  description := fun _ => .ok ("d")
  stars := fun _ => .ok 0
  forksPages := fun r =>
    if r = rootRepo then .ok [[forkA1, forkA2]]
    else if r = refOf forkA1 then .ok [[forkBoth]]
    else if r = refOf forkA2 then .ok [[forkBoth]]
    else .ok [[]]
  commitsPages := fun _ => .ok [[⟨"c1", now0⟩]]
  openIssues := fun _ => .ok 1
  releaseLatest := fun _ => (200, "v1")
  compare := fun _ _ _ _ => .ok (1, 0)

/-- Record emitted for `forkA1` under `envC3`. -/
def recC3A1 : ForkRecord :=
  ⟨forkA1, "d", 0, 1, 0, "today", Val.int 1, "v1", "/a1/fork"⟩

/-- Record emitted for `forkBoth` via `forkA1` under `envC3`. -/
def recC3B1 : ForkRecord :=
  ⟨forkBoth, "d", 0, 1, 0, "today", Val.int 1, "v1", "/a1/fork/bob/fork"⟩

/-- Record emitted for `forkA2` under `envC3`. -/
def recC3A2 : ForkRecord :=
  ⟨forkA2, "d", 0, 1, 0, "today", Val.int 1, "v1", "/a2/fork"⟩

/-- Record emitted for `forkBoth` via `forkA2` under `envC3` (same full
name as `recC3B1`, different path). -/
def recC3B2 : ForkRecord :=
  ⟨forkBoth, "d", 0, 1, 0, "today", Val.int 1, "v1", "/a2/fork/bob/fork"⟩

/-- Environment whose latest-release endpoint answers with HTTP 500 (not a
404): the repository-metadata request itself succeeds with 5 open issues. -/
def envC5 : Env :=
  { envSmall with openIssues := fun _ => .ok 5, releaseLatest := fun _ => (500, "v9") }

/-- Environment whose latest-release endpoint answers 404 (no releases). -/
def envC5b : Env :=
  { envSmall with openIssues := fun _ => .ok 3, releaseLatest := fun _ => (404, "") }

/-- Environment whose fork-listing request fails: the tree walk aborts. -/
def envC8 : Env :=
  { envSmall with forksPages := fun _ => .error Err.http }

/-- Environment whose commit listings are a single empty page. -/
def envC10 : Env :=
  { envSmall with commitsPages := fun _ => .ok [[]] }

/-! ### Calendar lemmas -/

theorem dtLt_iff (a b : DateTime) : dtLt a b = true ↔ toSec a < toSec b := by
  simp [dtLt]

theorem isLeap_iff (y : Nat) :
    isLeap y = true ↔ (y % 4 = 0 ∧ (y % 100 ≠ 0 ∨ y % 400 = 0)) := by
  simp [isLeap]

theorem daysInMonth_ge (y mo : Nat) (h1 : 1 ≤ mo) (h2 : mo ≤ 12) :
    28 ≤ daysInMonth y mo := by
  interval_cases mo <;> simp only [daysInMonth] <;> first | omega | (split <;> omega)

theorem daysBeforeMonth_succ (y mo : Nat) (h : 1 ≤ mo) :
    daysBeforeMonth y (mo + 1) = daysBeforeMonth y mo + daysInMonth y mo := by
  match mo, h with
  | mo + 1, _ => rfl

set_option maxHeartbeats 1000000 in
theorem leapsBefore_step (y : Nat) (h : 1 ≤ y) :
    leapsBefore y = leapsBefore (y - 1) + (if isLeap y = true then 1 else 0) := by
  rcases y with _ | k
  · omega
  · simp only [Nat.add_sub_cancel, leapsBefore]
    split
    · next hL => rw [isLeap_iff] at hL; omega
    · next hL => rw [isLeap_iff] at hL; push_neg at hL; omega

theorem daysBeforeYear_step (y : Nat) (h : 1 ≤ y) :
    daysBeforeYear (y + 1) = daysBeforeYear y + (if isLeap y = true then 366 else 365) := by
  simp only [daysBeforeYear, Nat.add_sub_cancel]
  rw [leapsBefore_step y h]
  split <;> omega

theorem daysBeforeMonth_13 (y : Nat) :
    daysBeforeMonth y 13 = if isLeap y = true then 366 else 365 := by
  by_cases h : isLeap y = true <;>
    simp [daysBeforeMonth, daysInMonth, h]

theorem mStart_step (n : Nat) (h : 12 ≤ n) :
    mStart (n + 1) = mStart n + daysInMonth (n / 12) (n % 12 + 1) := by
  rcases Nat.lt_or_ge (n % 12) 11 with hlt | hge
  · have h1 : (n + 1) / 12 = n / 12 := by omega
    have h2 : (n + 1) % 12 = n % 12 + 1 := by omega
    rw [mStart, mStart, h1, h2,
      daysBeforeMonth_succ (n / 12) (n % 12 + 1) (by omega)]
    omega
  · have h11 : n % 12 = 11 := by omega
    have h1 : (n + 1) / 12 = n / 12 + 1 := by omega
    have h2 : (n + 1) % 12 = 0 := by omega
    have hy : 1 ≤ n / 12 := by omega
    have hc : daysBeforeMonth (n / 12) 12 + daysInMonth (n / 12) 12 =
        (if isLeap (n / 12) = true then 366 else 365) := by
      have hs := daysBeforeMonth_succ (n / 12) 12 (by omega)
      norm_num at hs
      have h13b := daysBeforeMonth_13 (n / 12)
      omega
    have h1mo : daysBeforeMonth (n / 12 + 1) 1 = 0 := rfl
    rw [mStart, mStart, h1, h2, h11, daysBeforeYear_step (n / 12) hy]
    norm_num
    omega

theorem mStart_mono (a b : Nat) (ha : 12 ≤ a) (hab : a ≤ b) :
    mStart a ≤ mStart b := by
  induction b with
  | zero => omega
  | succ k ih =>
    rcases Nat.lt_or_ge k a with hk | hk
    · have hak : a = k + 1 := by omega
      rw [hak]
    · have h1 := mStart_step k (by omega)
      have h2 := ih hk
      omega

theorem ymIdx_ge (dt : DateTime) (hv : ValidDT dt) : 12 ≤ ymIdx dt := by
  obtain ⟨h1, h2, _⟩ := hv
  unfold ymIdx
  omega

theorem rataDie_eq (a : DateTime) (hv : ValidDT a) :
    rataDie a = mStart (ymIdx a) + (a.d - 1) := by
  obtain ⟨h1, h2, h3, _⟩ := hv
  have hy : ymIdx a / 12 = a.y := by unfold ymIdx; omega
  have hm : ymIdx a % 12 + 1 = a.mo := by unfold ymIdx; omega
  rw [rataDie, mStart, hy, hm]

theorem rataDie_lt (a b : DateTime) (hva : ValidDT a) (hvb : ValidDT b)
    (h : ymIdx a < ymIdx b) : rataDie a < rataDie b := by
  have hya : ymIdx a / 12 = a.y := by
    obtain ⟨h1, h2, h3, _⟩ := hva; unfold ymIdx; omega
  have hma : ymIdx a % 12 + 1 = a.mo := by
    obtain ⟨h1, h2, h3, _⟩ := hva; unfold ymIdx; omega
  have hd : a.d ≤ daysInMonth (ymIdx a / 12) (ymIdx a % 12 + 1) := by
    rw [hya, hma]; exact hva.2.2.2.2.1
  have hstep := mStart_step (ymIdx a) (ymIdx_ge a hva)
  have hmono := mStart_mono (ymIdx a + 1) (ymIdx b) (by
    have := ymIdx_ge a hva; omega) (by omega)
  rw [rataDie_eq a hva, rataDie_eq b hvb]
  have hd1 : 1 ≤ a.d := hva.2.2.2.1
  omega

theorem toSec_lt (a b : DateTime) (hva : ValidDT a) (hvb : ValidDT b)
    (h : ymIdx a < ymIdx b) : toSec a < toSec b := by
  have hr := rataDie_lt a b hva hvb h
  obtain ⟨_, _, _, _, _, hh, hmi, hs⟩ := hva
  unfold toSec
  omega

theorem ymIdx_le_of_toSec_le (a b : DateTime) (hva : ValidDT a)
    (hvb : ValidDT b) (h : toSec a ≤ toSec b) : ymIdx a ≤ ymIdx b := by
  by_contra hc
  push_neg at hc
  have := toSec_lt b a hvb hva hc
  omega

theorem addMonths_def (dt : DateTime) (m : Int) :
    addMonths dt m =
      { y := ((ymIdx dt : Int) + m).toNat / 12,
        mo := ((ymIdx dt : Int) + m).toNat % 12 + 1,
        d := min dt.d (daysInMonth (((ymIdx dt : Int) + m).toNat / 12)
          (((ymIdx dt : Int) + m).toNat % 12 + 1)),
        h := dt.h, mi := dt.mi, s := dt.s } := rfl

theorem ymIdx_addMonths (dt : DateTime) (m : Int) (hm : 0 ≤ m) :
    (ymIdx (addMonths dt m) : Int) = (ymIdx dt : Int) + m := by
  simp only [addMonths_def, ymIdx]
  omega

theorem addMonths_valid (dt : DateTime) (hv : ValidDT dt) (m : Int)
    (hm : 0 ≤ m) : ValidDT (addMonths dt m) := by
  have h12 : 12 ≤ ymIdx dt := ymIdx_ge dt hv
  obtain ⟨hy, hmo1, hmo2, hd1, hd2, hh, hmi, hs⟩ := hv
  rw [addMonths_def]
  unfold ValidDT
  simp only
  have hdim := daysInMonth_ge (((ymIdx dt : Int) + m).toNat / 12)
    (((ymIdx dt : Int) + m).toNat % 12 + 1) (by omega) (by omega)
  refine ⟨by omega, by omega, by omega, by omega, ?_, hh, hmi, hs⟩
  exact min_le_right _ _

theorem addMonths_zero (dt : DateTime) (hv : ValidDT dt) : addMonths dt 0 = dt := by
  obtain ⟨hy, hmo1, hmo2, hd1, hd2, hh, hmi, hs⟩ := hv
  obtain ⟨y, mo, d, h, mi, s⟩ := dt
  simp only at hy hmo1 hmo2 hd1 hd2
  rw [addMonths_def]
  simp only [ymIdx, DateTime.mk.injEq]
  have e1 : (((y * 12 + mo - 1 : Nat) : Int) + 0).toNat = y * 12 + mo - 1 := by omega
  have e2 : (y * 12 + mo - 1) / 12 = y := by omega
  have e3 : (y * 12 + mo - 1) % 12 + 1 = mo := by omega
  rw [e1, e2, e3]
  simp [min_eq_left hd2]

theorem toSec_addMonths_lt (dt : DateTime) (hv : ValidDT dt) {m1 m2 : Int}
    (h1 : 0 ≤ m1) (h12 : m1 < m2) :
    toSec (addMonths dt m1) < toSec (addMonths dt m2) := by
  apply toSec_lt _ _ (addMonths_valid dt hv m1 h1)
    (addMonths_valid dt hv m2 (by omega))
  have e1 := ymIdx_addMonths dt m1 h1
  have e2 := ymIdx_addMonths dt m2 (by omega)
  omega

theorem toSec_addMonths_le (dt : DateTime) (hv : ValidDT dt) {m1 m2 : Int}
    (h1 : 0 ≤ m1) (h12 : m1 ≤ m2) :
    toSec (addMonths dt m1) ≤ toSec (addMonths dt m2) := by
  rcases eq_or_lt_of_le h12 with he | hlt
  · rw [he]
  · exact le_of_lt (toSec_addMonths_lt dt hv h1 hlt)

theorem adjustDown_spec (dt1 dt2 : DateTime) (_hv1 : ValidDT dt1)
    (hv2 : ValidDT dt2) (H : toSec dt2 ≤ toSec dt1) :
    ∀ fuel : Nat, ∀ m : Int, 0 ≤ m → m.toNat < fuel →
      0 ≤ adjustDown dt1 dt2 fuel m ∧ adjustDown dt1 dt2 fuel m ≤ m ∧
      toSec (addMonths dt2 (adjustDown dt1 dt2 fuel m)) ≤ toSec dt1 ∧
      (∀ k : Int, adjustDown dt1 dt2 fuel m < k → k ≤ m →
        toSec dt1 < toSec (addMonths dt2 k)) := by
  intro fuel
  induction fuel with
  | zero => intro m hm hf; omega
  | succ fuel ih =>
    intro m hm hf
    simp only [adjustDown]
    split
    · next hcond =>
      rw [dtLt_iff] at hcond
      have hm1 : 1 ≤ m := by
        by_contra hc
        push_neg at hc
        have hz : m = 0 := by omega
        rw [hz, addMonths_zero dt2 hv2] at hcond
        omega
      obtain ⟨r0, r1, r2, r3⟩ := ih (m - 1) (by omega) (by omega)
      refine ⟨by omega, by omega, r2, ?_⟩
      intro k hk1 hk2
      rcases le_or_lt k (m - 1) with hk | hk
      · exact r3 k hk1 hk
      · have hkm : k = m := by omega
        rw [hkm]
        exact hcond
    · next hcond =>
      rw [dtLt_iff] at hcond
      push_neg at hcond
      exact ⟨hm, le_refl m, hcond, fun k hk1 hk2 => by omega⟩

theorem monthsRaw_eq (dt1 dt2 : DateTime) (hv1 : ValidDT dt1)
    (hv2 : ValidDT dt2) :
    monthsRaw dt1 dt2 = (ymIdx dt1 : Int) - (ymIdx dt2 : Int) := by
  obtain ⟨_, h1, _⟩ := hv1
  obtain ⟨_, h2, _⟩ := hv2
  unfold monthsRaw ymIdx
  omega

theorem rdMonths_spec (dt1 dt2 : DateTime) (hv1 : ValidDT dt1)
    (hv2 : ValidDT dt2) (H : toSec dt2 ≤ toSec dt1) :
    0 ≤ rdMonths dt1 dt2 ∧
    toSec (addMonths dt2 (rdMonths dt1 dt2)) ≤ toSec dt1 ∧
    ∀ t : Int, 0 ≤ t →
      (t ≤ rdMonths dt1 dt2 ↔ toSec (addMonths dt2 t) ≤ toSec dt1) := by
  have hm0 : 0 ≤ monthsRaw dt1 dt2 := by
    rw [monthsRaw_eq dt1 dt2 hv1 hv2]
    have := ymIdx_le_of_toSec_le dt2 dt1 hv2 hv1 H
    omega
  have hnot : ¬(dtLt dt1 dt2 = true) := by
    rw [dtLt_iff]
    omega
  have hrd : rdMonths dt1 dt2 =
      adjustDown dt1 dt2 ((monthsRaw dt1 dt2).natAbs + 1) (monthsRaw dt1 dt2) := by
    unfold rdMonths
    rw [if_neg hnot]
  obtain ⟨r0, r1, r2, r3⟩ := adjustDown_spec dt1 dt2 hv1 hv2 H
    ((monthsRaw dt1 dt2).natAbs + 1) (monthsRaw dt1 dt2) hm0 (by omega)
  rw [hrd]
  refine ⟨r0, r2, ?_⟩
  intro t ht
  constructor
  · intro hle
    calc toSec (addMonths dt2 t) ≤
        toSec (addMonths dt2 (adjustDown dt1 dt2 ((monthsRaw dt1 dt2).natAbs + 1)
          (monthsRaw dt1 dt2))) := toSec_addMonths_le dt2 hv2 ht hle
      _ ≤ toSec dt1 := r2
  · intro hle
    have htm : t ≤ monthsRaw dt1 dt2 := by
      have hvt := addMonths_valid dt2 hv2 t ht
      have := ymIdx_le_of_toSec_le (addMonths dt2 t) dt1 hvt hv1 hle
      have := ymIdx_addMonths dt2 t ht
      rw [monthsRaw_eq dt1 dt2 hv1 hv2]
      omega
    by_contra hc
    push_neg at hc
    have := r3 t hc htm
    omega

theorem setMonths_nonneg (m : Int) (hm : 0 ≤ m) :
    setMonths m = (if 12 ≤ m then (m / 12, m % 12) else ((0 : Int), m)) := by
  unfold setMonths
  by_cases h12 : 12 ≤ m
  · rw [if_pos (show 11 < m.natAbs by omega), if_pos h12, if_pos hm]
    simp
  · rw [if_neg (show ¬(11 < m.natAbs) by omega), if_neg h12]

theorem rdelta_eq (now dt : DateTime) (hv1 : ValidDT now) (hv2 : ValidDT dt)
    (H : toSec dt ≤ toSec now) :
    rdelta now dt =
      (if 12 ≤ rdMonths now dt then rdMonths now dt / 12 else 0,
       if 12 ≤ rdMonths now dt then rdMonths now dt % 12 else rdMonths now dt,
       ((toSec now : Int) -
         (toSec (addMonths dt (rdMonths now dt)) : Int)).fdiv 86400) := by
  obtain ⟨hm0, _, _⟩ := rdMonths_spec now dt hv1 hv2 H
  unfold rdelta
  dsimp only
  rw [setMonths_nonneg _ hm0]
  by_cases h12 : 12 ≤ rdMonths now dt
  · simp [h12]
  · simp [h12]

theorem fdiv_cast_nat (a : Nat) :
    ((a : Int)).fdiv 86400 = ((a / 86400 : Nat) : Int) := by
  rw [Int.fdiv_eq_ediv _ (by norm_num)]
  omega

/-- C4: for a timestamp not later than "now", `relative_time_from_now`
renders only the coarsest non-zero calendar unit — "N years ago" when at
least one calendar year has elapsed (`now` is not before the date shifted by
12 months), else "N months ago" when at least one calendar month has
elapsed, else "N days ago" when at least 86400 seconds have elapsed, else
the literal "today"; moreover for the fixed now 2026-10-12, 400 days prior
renders "1 years ago", 10 days prior renders "10 days ago", and "now"
itself renders "today". -/
theorem relative_time_coarsest (now dt : DateTime) (hv1 : ValidDT now)
    (hv2 : ValidDT dt) (H : toSec dt ≤ toSec now) :
    (toSec (addMonths dt 12) ≤ toSec now →
      ∃ n : Int, 1 ≤ n ∧ relative_time_from_now now dt = s!"{n} years ago") ∧
    (toSec now < toSec (addMonths dt 12) → toSec (addMonths dt 1) ≤ toSec now →
      ∃ n : Int, 1 ≤ n ∧ n ≤ 11 ∧
        relative_time_from_now now dt = s!"{n} months ago") ∧
    (toSec now < toSec (addMonths dt 1) → toSec dt + 86400 ≤ toSec now →
      ∃ n : Int, 1 ≤ n ∧ relative_time_from_now now dt = s!"{n} days ago") ∧
    (toSec now < toSec (addMonths dt 1) → toSec now < toSec dt + 86400 →
      relative_time_from_now now dt = "today") ∧
    relative_time_from_now now0 date400 = "1 years ago" ∧
    relative_time_from_now now0 date10 = "10 days ago" ∧
    relative_time_from_now now0 now0 = "today" := by
  obtain ⟨hm0, hmle, hiff⟩ := rdMonths_spec now dt hv1 hv2 H
  have hout : relative_time_from_now now dt =
      (if 0 < (rdelta now dt).1 then s!"{(rdelta now dt).1} years ago"
       else if 0 < (rdelta now dt).2.1 then s!"{(rdelta now dt).2.1} months ago"
       else if 0 < (rdelta now dt).2.2 then s!"{(rdelta now dt).2.2} days ago"
       else ("today")) := rfl
  rw [rdelta_eq now dt hv1 hv2 H] at hout
  dsimp only at hout
  refine ⟨?_, ?_, ?_, ?_, by decide, by decide, by decide⟩
  · intro hA
    have h12m : 12 ≤ rdMonths now dt := (hiff 12 (by norm_num)).mpr hA
    refine ⟨rdMonths now dt / 12, by omega, ?_⟩
    rw [hout, if_pos h12m, if_pos h12m,
      if_pos (show (0 : Int) < rdMonths now dt / 12 by omega)]
  · intro hB hB2
    have h12m : ¬(12 ≤ rdMonths now dt) := by
      intro hc
      have := (hiff 12 (by norm_num)).mp hc
      omega
    have h1m : 1 ≤ rdMonths now dt := (hiff 1 (by norm_num)).mpr hB2
    refine ⟨rdMonths now dt, h1m, by omega, ?_⟩
    rw [hout, if_neg h12m, if_neg h12m, if_neg (show ¬((0 : Int) < 0) by omega),
      if_pos (show (0 : Int) < rdMonths now dt by omega)]
  · intro hC hC2
    have hmz : rdMonths now dt = 0 := by
      have h1m : ¬(1 ≤ rdMonths now dt) := by
        intro hc
        have := (hiff 1 (by norm_num)).mp hc
        omega
      omega
    rw [hmz, addMonths_zero dt hv2] at hout
    have hcast : (toSec now : Int) - (toSec dt : Int) =
        ((toSec now - toSec dt : Nat) : Int) := by omega
    rw [hcast, fdiv_cast_nat] at hout
    norm_num at hout
    refine ⟨((toSec now - toSec dt : Nat) : Int) / 86400, by omega, ?_⟩
    rw [hout,
      if_pos (show (0 : Int) < ((toSec now - toSec dt : Nat) : Int) / 86400 by
        omega)]
  · intro hD hD2
    have hmz : rdMonths now dt = 0 := by
      have h1m : ¬(1 ≤ rdMonths now dt) := by
        intro hc
        have := (hiff 1 (by norm_num)).mp hc
        omega
      omega
    rw [hmz, addMonths_zero dt hv2] at hout
    have hcast : (toSec now : Int) - (toSec dt : Int) =
        ((toSec now - toSec dt : Nat) : Int) := by omega
    rw [hcast, fdiv_cast_nat] at hout
    norm_num at hout
    rw [hout,
      if_neg (show ¬((0 : Int) < ((toSec now - toSec dt : Nat) : Int) / 86400) by
        omega)]

/-! ### Pagination lemmas -/

theorem fetchLoop_eq {α : Type} (pages : List (List α)) :
    fetchLoop pages = (pages.flatten, pages.length) := by
  induction pages with
  | nil => rfl
  | cons page rest ih =>
    cases rest with
    | nil => simp [fetchLoop]
    | cons next more =>
      simp [fetchLoop, ih]

theorem commitsLoop_eq (pages : List (List Commit))
    (acc : List String × Option DateTime) :
    commitsLoop pages acc = (pages.flatten.foldl commitStep acc, pages.length) := by
  induction pages generalizing acc with
  | nil => rfl
  | cons page rest ih =>
    cases rest with
    | nil => simp [commitsLoop]
    | cons next more =>
      simp [commitsLoop, ih, List.foldl_append]

/-! ### Deduplication lemmas -/

theorem dictInsert_keys (d : List (String × ForkRecord)) (k : String)
    (v : ForkRecord) :
    (dictInsert d k v).map Prod.fst =
      if k ∈ d.map Prod.fst then d.map Prod.fst else d.map Prod.fst ++ [k] := by
  induction d with
  | nil => simp [dictInsert]
  | cons kv rest ih =>
    by_cases h : kv.1 = k
    · simp [dictInsert, h]
    · by_cases hk : k ∈ rest.map Prod.fst
      · simp [dictInsert, h, ih, hk, Ne.symm h]
      · simp [dictInsert, h, ih, hk, Ne.symm h]

theorem mem_dictInsert (d : List (String × ForkRecord)) (k : String)
    (v : ForkRecord) (hnd : (d.map Prod.fst).Nodup)
    (kv : String × ForkRecord) :
    kv ∈ dictInsert d k v ↔
      ((kv.1 = k ∧ kv.2 = v) ∨ (kv ∈ d ∧ kv.1 ≠ k)) := by
  induction d with
  | nil =>
    simp only [dictInsert, List.mem_singleton, List.not_mem_nil, false_and, or_false]
    constructor
    · intro h
      rw [h]
      exact ⟨rfl, rfl⟩
    · intro ⟨h1, h2⟩
      obtain ⟨a, b⟩ := kv
      simp only at h1 h2
      rw [h1, h2]
  | cons kv0 rest ih =>
    simp only [List.map_cons, List.nodup_cons] at hnd
    obtain ⟨hk0, hndr⟩ := hnd
    by_cases h : kv0.1 = k
    · simp only [dictInsert, if_pos h]
      constructor
      · intro hm
        rcases List.mem_cons.mp hm with he | hr
        · left
          rw [he]
          exact ⟨h, rfl⟩
        · right
          refine ⟨List.mem_cons_of_mem _ hr, fun hc => hk0 ?_⟩
          rw [h, ← hc]
          exact List.mem_map_of_mem Prod.fst hr
      · intro hm
        rcases hm with ⟨h1, h2⟩ | ⟨h1, h2⟩
        · obtain ⟨a, b⟩ := kv
          simp only at h1 h2
          subst h1
          subst h2
          rw [← h]
          exact List.mem_cons_self _ _
        · rcases List.mem_cons.mp h1 with he | hr
          · exact absurd (by rw [he]; exact h) h2
          · exact List.mem_cons_of_mem _ hr
    · simp only [dictInsert, if_neg h]
      rw [List.mem_cons, ih hndr]
      constructor
      · intro hm
        rcases hm with he | hm2
        · right
          refine ⟨List.mem_cons.mpr (Or.inl he), ?_⟩
          rw [he]
          exact h
        · rcases hm2 with h1 | ⟨h1, h2⟩
          · exact Or.inl h1
          · exact Or.inr ⟨List.mem_cons_of_mem _ h1, h2⟩
      · intro hm
        rcases hm with h1 | ⟨h1, h2⟩
        · exact Or.inr (Or.inl h1)
        · rcases List.mem_cons.mp h1 with he | hr
          · exact Or.inl he
          · exact Or.inr (Or.inr ⟨hr, h2⟩)

theorem dict_spec (l : List ForkRecord) :
    (∀ kv ∈ l.foldl (fun d r => dictInsert d (fullNameOf r) r) [],
        kv.1 = fullNameOf kv.2) ∧
    ((l.foldl (fun d r => dictInsert d (fullNameOf r) r) []).map Prod.fst).Nodup ∧
    (∀ kv ∈ l.foldl (fun d r => dictInsert d (fullNameOf r) r) [],
        l.reverse.find? (fun x => fullNameOf x == kv.1) = some kv.2) ∧
    (∀ r ∈ l, fullNameOf r ∈
        (l.foldl (fun d r => dictInsert d (fullNameOf r) r) []).map Prod.fst) := by
  induction l using List.reverseRecOn with
  | nil => simp
  | append_singleton l v ih =>
    obtain ⟨ih1, ih2, ih3, ih4⟩ := ih
    have hfold : (l ++ [v]).foldl (fun d r => dictInsert d (fullNameOf r) r) [] =
        dictInsert (l.foldl (fun d r => dictInsert d (fullNameOf r) r) [])
          (fullNameOf v) v := by
      rw [List.foldl_append]
      rfl
    have hrev : (l ++ [v]).reverse = v :: l.reverse := by
      simp
    rw [hfold, hrev]
    refine ⟨?_, ?_, ?_, ?_⟩
    · intro kv hkv
      rcases (mem_dictInsert _ _ _ ih2 kv).mp hkv with ⟨e1, e2⟩ | ⟨hm, _⟩
      · rw [e1, e2]
      · exact ih1 kv hm
    · rw [dictInsert_keys]
      by_cases hmem : fullNameOf v ∈
          (l.foldl (fun d r => dictInsert d (fullNameOf r) r) []).map Prod.fst
      · rw [if_pos hmem]
        exact ih2
      · rw [if_neg hmem]
        simp [List.nodup_append, ih2, hmem]
    · intro kv hkv
      rcases (mem_dictInsert _ _ _ ih2 kv).mp hkv with ⟨e1, e2⟩ | ⟨hm, hne⟩
      · rw [List.find?_cons_of_pos _ (by rw [e1]; exact beq_self_eq_true _), e2]
      · rw [List.find?_cons_of_neg _ (by
          simp only [beq_iff_eq]
          intro hc
          exact hne hc.symm)]
        exact ih3 kv hm
    · intro r hr
      rw [dictInsert_keys]
      rcases List.mem_append.mp hr with hl | hv
      · have := ih4 r hl
        by_cases hmem : fullNameOf v ∈
            (l.foldl (fun d r => dictInsert d (fullNameOf r) r) []).map Prod.fst
        · rw [if_pos hmem]
          exact this
        · rw [if_neg hmem]
          exact List.mem_append.mpr (Or.inl this)
      · have hrv : r = v := List.mem_singleton.mp hv
        by_cases hmem : fullNameOf v ∈
            (l.foldl (fun d r => dictInsert d (fullNameOf r) r) []).map Prod.fst
        · rw [if_pos hmem, hrv]
          exact hmem
        · rw [if_neg hmem, hrv]
          exact List.mem_append.mpr (Or.inr (List.mem_singleton.mpr rfl))

/-- C3 (amended): the deduplication step yields at most one entry per
distinct full repository name; when several records share a full name the
kept record is the **last**-encountered one in walk emission order (a dict
comprehension overwrites the value on key collision), and every full name
that occurs in the input survives. -/
theorem dedup_names_nodup_keep_last (l : List ForkRecord) :
    ((dedupByFullName l).map fullNameOf).Nodup ∧
    (∀ r ∈ dedupByFullName l,
      l.reverse.find? (fun x => fullNameOf x == fullNameOf r) = some r) ∧
    (∀ r ∈ l, ∃ q, q ∈ dedupByFullName l ∧ fullNameOf q = fullNameOf r) := by
  obtain ⟨h1, h2, h3, h4⟩ := dict_spec l
  unfold dedupByFullName
  refine ⟨?_, ?_, ?_⟩
  · have hmm : ((l.foldl (fun d r => dictInsert d (fullNameOf r) r) []).map
        Prod.snd).map fullNameOf =
        (l.foldl (fun d r => dictInsert d (fullNameOf r) r) []).map Prod.fst := by
      rw [List.map_map]
      apply List.map_congr_left
      intro kv hkv
      exact (h1 kv hkv).symm
    rw [hmm]
    exact h2
  · intro r hr
    obtain ⟨kv, hkv, hkv2⟩ := List.mem_map.mp hr
    have hf := h3 kv hkv
    rw [h1 kv hkv, hkv2] at hf
    exact hf
  · intro r hr
    obtain ⟨k, hk, hkey⟩ := List.mem_map.mp (h4 r hr)
    exact ⟨k.2, List.mem_map_of_mem Prod.snd hk, by rw [← hkey, h1 k hk]⟩

/-! ### Tree-walk soundness -/

theorem gatherLoop_sound (env : Env) (fuel : Nat) (current : RepoId)
    (forks0 : List ForkObj) (hforks : get_forks env current = .ok forks0)
    (IH : ∀ parent current path recs,
      gatherFuel env fuel parent current path = .ok recs →
      ∀ r ∈ recs, ∃ p, EmitParent env fuel parent current path r p) :
    ∀ parent parentPath l recs, (∀ f ∈ l, f ∈ forks0) →
      gatherLoop env (gatherFuel env fuel) parent parentPath l = .ok recs →
      ∀ r ∈ recs, ∃ p, EmitParent env (fuel + 1) parent current parentPath r p := by
  intro parent parentPath l
  induction l with
  | nil =>
    intro recs _ hok r hr
    simp only [gatherLoop] at hok
    cases hok
    simp at hr
  | cons f rest ih =>
    intro recs hsub hok r hr
    simp only [gatherLoop] at hok
    split at hok
    · exact absurd hok (by simp)
    · next ci hci =>
      split at hok
      · exact absurd hok (by simp)
      · next ab hab =>
        split at hok
        · exact ih recs (fun g hg => hsub g (List.mem_cons_of_mem f hg)) hok r hr
        · next hne =>
          split at hok
          · exact absurd hok (by simp)
          · next fields hbf =>
            split at hok
            · exact absurd hok (by simp)
            · next descr hdescr =>
              split at hok
              · exact absurd hok (by simp)
              · next st hst =>
                split at hok
                · exact absurd hok (by simp)
                · next sub hsubrec =>
                  split at hok
                  · exact absurd hok (by simp)
                  · next restRecs hrest =>
                    rw [Except.ok.injEq] at hok
                    rw [← hok] at hr
                    rcases List.mem_cons.mp hr with he | hr2
                    · refine ⟨parent, ?_⟩
                      rw [he]
                      exact EmitParent.direct hforks (hsub f (List.mem_cons_self f rest))
                        hci hab hne hbf hdescr hst
                    · rcases List.mem_append.mp hr2 with hsub2 | hrest2
                      · obtain ⟨p, hp⟩ := IH _ _ _ _ hsubrec r hsub2
                        exact ⟨p, EmitParent.nested hforks
                          (hsub f (List.mem_cons_self f rest)) hab hne hp⟩
                      · exact ih restRecs
                          (fun g hg => hsub g (List.mem_cons_of_mem f hg)) hrest r hrest2

theorem gatherFuel_sound (env : Env) :
    ∀ fuel parent current path recs,
      gatherFuel env fuel parent current path = .ok recs →
      ∀ r ∈ recs, ∃ p, EmitParent env fuel parent current path r p := by
  intro fuel
  induction fuel with
  | zero =>
    intro parent current path recs hok r hr
    simp only [gatherFuel] at hok
    cases hok
    simp at hr
  | succ fuel ih =>
    intro parent current path recs hok r hr
    simp only [gatherFuel] at hok
    split at hok
    · exact absurd hok (by simp)
    · next forks hforks =>
      exact gatherLoop_sound env fuel current forks hforks ih parent path forks recs
        (fun g hg => hg) hok r hr

theorem gather_activity_sound (env : Env) (parent current : RepoId)
    (depth max_depth : Nat) (path : String) (recs : List ForkRecord)
    (hok : gather_activity env parent current depth max_depth path = .ok recs) :
    ∀ r ∈ recs,
      ∃ p, EmitParent env (max_depth + 1 - depth) parent current path r p :=
  gatherFuel_sound env (max_depth + 1 - depth) parent current path recs hok

theorem EmitParent_fields (env : Env) {fuel : Nat} {parent current : RepoId}
    {path : String} {r : ForkRecord} {p : RepoId}
    (h : EmitParent env fuel parent current path r p) :
    0 < r.commits_ahead ∧
    get_commits_ahead_behind env p (refOf r.fork) =
      .ok (r.commits_ahead, r.commits_behind) ∧
    (∃ shas d, get_commits_info env (refOf r.fork) = .ok (shas, some d) ∧
      r.last_commit_date = relative_time_from_now env.now d) ∧
    (∃ issues rel, get_repo_info env (refOf r.fork) = .ok (issues, rel) ∧
      r.open_issues_count = normalizeIssues issues ∧
      r.last_release_number = rel ∧
      (issues = 0 → r.open_issues_count = Val.str ("-")) ∧
      ((env.releaseLatest (refOf r.fork)).1 ≠ 200 →
        r.last_release_number = "-")) := by
  induction h with
  | direct hforks hf hci hab hne hbf hdescr hst =>
    next fuel parent current parentPath forks f ci ab fields descr st =>
    refine ⟨Nat.pos_of_ne_zero hne, hab, ?_, ?_⟩
    · unfold buildFields at hbf
      rw [if_neg (by omega)] at hbf
      cases hd : ci.2 with
      | none =>
        rw [hd] at hbf
        exact absurd hbf (by simp [relOrError])
      | some d =>
        rw [hd] at hbf
        simp only [relOrError] at hbf
        refine ⟨ci.1, d, ?_, ?_⟩
        · rw [← hd]
          exact hci
        · cases hri : get_repo_info env (refOf f) with
          | error e => rw [hri] at hbf; exact absurd hbf (by simp)
          | ok ir =>
            rw [hri] at hbf
            simp only [Except.ok.injEq] at hbf
            rw [← hbf]
    · unfold buildFields at hbf
      rw [if_neg (by omega)] at hbf
      cases hd : ci.2 with
      | none =>
        rw [hd] at hbf
        exact absurd hbf (by simp [relOrError])
      | some d =>
        rw [hd] at hbf
        simp only [relOrError] at hbf
        cases hri : get_repo_info env (refOf f) with
        | error e => rw [hri] at hbf; exact absurd hbf (by simp)
        | ok ir =>
          rw [hri] at hbf
          simp only [Except.ok.injEq] at hbf
          refine ⟨ir.1, ir.2, ?_, ?_, ?_, ?_, ?_⟩
          · rfl
          · rw [← hbf]
          · rw [← hbf]
          · intro hz
            rw [← hbf]
            simp [normalizeIssues, hz]
          · intro hs
            rw [← hbf]
            unfold get_repo_info at hri
            cases hoi : env.openIssues (refOf f) with
            | error e => rw [hoi] at hri; exact absurd hri (by simp)
            | ok issues =>
              rw [hoi] at hri
              simp only [Except.ok.injEq] at hri
              rw [← hri]
              simp only
              rw [if_neg hs]
  | nested _ _ _ _ _ ihr => exact ihr

/-! ### Commit-listing helpers -/

theorem get_commits_info_of_pages (env : Env) (r : RepoId)
    (pages : List (List Commit)) (h : env.commitsPages r = .ok pages) :
    get_commits_info env r = .ok (pages.flatten.foldl commitStep ([], none)) := by
  unfold get_commits_info
  rw [h]
  simp [commitsLoop_eq]

/-! ### Structure of `main` -/

theorem main_ok_parts (env : Env) (ws : List (String × String))
    (hm : main env = .ok ws) :
    (∃ recs, gather_activity env rootRepo rootRepo 0 2 ("") = .ok recs) ∧
    (∃ shas d, get_commits_info env rootRepo = .ok (shas, some d)) := by
  unfold main at hm
  split at hm
  · exact absurd hm (by simp)
  · next pd hpd =>
    split at hm
    · exact absurd hm (by simp)
    · next pc hpc =>
      split at hm
      · exact absurd hm (by simp)
      · next pir hpir =>
        split at hm
        · exact absurd hm (by simp)
        · next fa hfa =>
          refine ⟨⟨fa, hfa⟩, ?_⟩
          unfold generate_html at hm
          split at hm
          · exact absurd hm (by simp)
          · next prel hprel =>
            cases hd : pc.2 with
            | none =>
              rw [hd] at hprel
              exact absurd hprel (by simp [relOrError])
            | some d =>
              refine ⟨pc.1, d, ?_⟩
              rw [← hd]
              exact hpc

/-! ### Claim theorems -/

/-- C1: every record in the output of the tree walk has `commits_ahead > 0`
(a fork with `ahead_by == 0` is skipped by the `continue` before any record
is appended and before the recursive call), and every record's provenance is
a chain of forks that each passed the inclusion filter — so no record can
come from the subtree of a filtered-out fork, regardless of `behind_by` or
of the descendants' divergence values. -/
theorem included_forks_have_commits_ahead (env : Env) (parent current : RepoId)
    (depth max_depth : Nat) (path : String) (recs : List ForkRecord)
    (hok : gather_activity env parent current depth max_depth path = .ok recs) :
    ∀ r ∈ recs, 0 < r.commits_ahead ∧
      ∃ p, EmitParent env (max_depth + 1 - depth) parent current path r p := by
  intro r hr
  obtain ⟨p, hp⟩ := gather_activity_sound env parent current depth max_depth path
    recs hok r hr
  exact ⟨(EmitParent_fields env hp).1, p, hp⟩

theorem included_forks_have_commits_ahead_witness :
    0 < recSmall.commits_ahead ∧
    ∃ p, EmitParent envSmall (2 + 1 - 0) rootRepo rootRepo ("") recSmall p :=
  included_forks_have_commits_ahead envSmall rootRepo rootRepo 0 2 ("")
    [recSmall] rfl recSmall (by decide)

/-- C2 (counterexample): under `envC2` the fork-of-fork `forkB` compares
(5, 7) against the original root (`get_commits_ahead_behind` on the root),
but the record the walk stores for it carries (2, 3) — the divergence
computed against its immediate parent `forkA` — so divergence is **not**
root-relative at depth ≥ 1. -/
theorem divergence_root_relative_cex :
    gather_activity envC2 rootRepo rootRepo 0 2 ("") = .ok [recC2A, recC2B] ∧
    get_commits_ahead_behind envC2 rootRepo (refOf forkB) = .ok (5, 7) ∧
    recC2B.commits_ahead = 2 ∧ recC2B.commits_behind = 3 ∧
    ((recC2B.commits_ahead, recC2B.commits_behind) ≠ ((5 : Nat), (7 : Nat))) :=
  ⟨rfl, rfl, rfl, rfl, by decide⟩

/-- C2 (amended): every record's stored divergence is the comparison against
its **immediate parent** in the traversal: the walk's `parent` argument for
directly listed forks, and the enclosing fork itself for records found in a
subtree (the recursive call passes the fork as the new parent).  The root is
the comparison base only for depth-0 forks. -/
theorem divergence_parent_relative (env : Env) (parent current : RepoId)
    (depth max_depth : Nat) (path : String) (recs : List ForkRecord)
    (hok : gather_activity env parent current depth max_depth path = .ok recs) :
    ∀ r ∈ recs, ∃ p,
      EmitParent env (max_depth + 1 - depth) parent current path r p ∧
      get_commits_ahead_behind env p (refOf r.fork) =
        .ok (r.commits_ahead, r.commits_behind) := by
  intro r hr
  obtain ⟨p, hp⟩ := gather_activity_sound env parent current depth max_depth path
    recs hok r hr
  exact ⟨p, hp, (EmitParent_fields env hp).2.1⟩

theorem divergence_parent_relative_witness :
    ∃ p, EmitParent envC2 (2 + 1 - 0) rootRepo rootRepo ("") recC2B p ∧
      get_commits_ahead_behind envC2 p (refOf recC2B.fork) =
        .ok (recC2B.commits_ahead, recC2B.commits_behind) :=
  divergence_parent_relative envC2 rootRepo rootRepo 0 2 ("")
    [recC2A, recC2B] rfl recC2B (by decide)

/-- C3 (counterexample): under `envC3` the walk emits two records for
`bob/fork` (via `a1/fork` and via `a2/fork`); the deduplicated list keeps
the **second**-encountered record `recC3B2`, not the first-encountered
`recC3B1`, refuting "the first-encountered record is the one kept". -/
theorem dedup_first_encountered_cex :
    gather_activity envC3 rootRepo rootRepo 0 2 ("") =
      .ok [recC3A1, recC3B1, recC3A2, recC3B2] ∧
    fullNameOf recC3B1 = fullNameOf recC3B2 ∧
    recC3B1 ≠ recC3B2 ∧
    dedupByFullName [recC3A1, recC3B1, recC3A2, recC3B2] =
      [recC3A1, recC3B2, recC3A2] ∧
    recC3B2 ∈ dedupByFullName [recC3A1, recC3B1, recC3A2, recC3B2] ∧
    recC3B1 ∉ dedupByFullName [recC3A1, recC3B1, recC3A2, recC3B2] :=
  ⟨rfl, rfl, by decide, rfl, by decide, by decide⟩

theorem dedup_names_nodup_keep_last_witness :
    ([recC3A1, recC3B1, recC3A2, recC3B2].reverse).find?
      (fun x => fullNameOf x == fullNameOf recC3B2) = some recC3B2 :=
  (dedup_names_nodup_keep_last [recC3A1, recC3B1, recC3A2, recC3B2]).2.1
    recC3B2 (by decide)

theorem relative_time_coarsest_witness :
    relative_time_from_now now0 date400 = "1 years ago" :=
  (relative_time_coarsest now0 date400 (by decide) (by decide) (by decide)).2.2.2.2.1

/-- C5 (counterexample): the latest-release request of `envC5` answers
HTTP 500 — not the tolerated 404 — yet `get_repo_info` does not raise: it
returns successfully with the sentinel `"-"`, refuting "for the release
endpoint, a failure other than 404 raises an error that aborts the run". -/
theorem release_non404_tolerated_cex :
    (envC5.releaseLatest rootRepo).1 = 500 ∧
    (envC5.releaseLatest rootRepo).1 ≠ 404 ∧
    get_repo_info envC5 rootRepo = .ok (5, "-") ∧
    (get_repo_info envC5 rootRepo).isOk = true :=
  ⟨rfl, by decide, rfl, rfl⟩

/-- C5 (amended): the repository-metadata request is fatal on failure, but
the latest-release lookup never aborts on an HTTP status: **any** status
other than 200 (404 included) yields the sentinel `"-"`, and a 200 yields
the tag verbatim. -/
theorem get_repo_info_spec (env : Env) (r : RepoId) :
    (∀ e, env.openIssues r = .error e → get_repo_info env r = .error e) ∧
    (∀ i, env.openIssues r = .ok i →
      get_repo_info env r =
        .ok (i, if (env.releaseLatest r).1 = 200
          then (env.releaseLatest r).2 else ("-"))) := by
  constructor
  · intro e he
    unfold get_repo_info
    rw [he]
  · intro i hi
    unfold get_repo_info
    rw [hi]

theorem get_repo_info_spec_witness :
    get_repo_info envC5b rootRepo = .ok (3, "-") := by
  have h := (get_repo_info_spec envC5b rootRepo).2 3 rfl
  rw [h]
  rfl

/-- C6 (counterexample): the commit-listing fetch loop does make one request
per page, but it does **not** return the concatenation of all pages' items:
a SHA repeated across pages is collapsed into the set, so the returned
collection differs from the two-element concatenation. -/
theorem commit_pagination_concat_cex :
    (commitsLoop [[⟨"a", now0⟩], [⟨"a", now0⟩]] ([], none)).2 = 2 ∧
    (commitsLoop [[⟨"a", now0⟩], [⟨"a", now0⟩]] ([], none)).1.1 = ["a"] ∧
    List.map Commit.sha
      ([[⟨"a", now0⟩], [⟨"a", now0⟩]] : List (List Commit)).flatten = ["a", "a"] ∧
    (["a"] : List String) ≠ ["a", "a"] :=
  ⟨rfl, rfl, rfl, by decide⟩

/-- C6 (amended): both pagination loops make exactly N requests for an
N-page chain and stop when no "next" link remains; the fork-listing loop
returns the concatenation of all pages' items in server order, while the
commit-listing loop folds over exactly that concatenation, in order,
accumulating the deduplicated SHA set and the maximum commit date. -/
theorem pagination_complete :
    (∀ (α : Type) (pages : List (List α)),
      fetchLoop pages = (pages.flatten, pages.length)) ∧
    (∀ (pages : List (List Commit)) (acc : List String × Option DateTime),
      commitsLoop pages acc = (pages.flatten.foldl commitStep acc, pages.length)) :=
  ⟨fun _ pages => fetchLoop_eq pages, fun pages acc => commitsLoop_eq pages acc⟩

/-- C7: a fork record's open-issue display value is the caller-normalized
`normalizeIssues` of the fetched count — the sentinel `"-"` exactly when the
count is zero — and its release column carries `get_repo_info`'s result,
which is `"-"` whenever the release endpoint did not answer 200; the same
caller normalization is applied to the root repository in `main`, whose
`generate_html` call receives `Val.str "-"` when the root has zero open
issues. -/
theorem sentinel_normalization (env : Env) :
    (∀ parent current depth max_depth path recs,
      gather_activity env parent current depth max_depth path = .ok recs →
      ∀ r ∈ recs, ∃ issues rel,
        get_repo_info env (refOf r.fork) = .ok (issues, rel) ∧
        r.open_issues_count = normalizeIssues issues ∧
        (issues = 0 → r.open_issues_count = Val.str ("-")) ∧
        r.last_release_number = rel ∧
        ((env.releaseLatest (refOf r.fork)).1 ≠ 200 →
          r.last_release_number = "-")) ∧
    normalizeIssues 0 = Val.str ("-") ∧
    (∀ rel, get_repo_info env rootRepo = .ok (0, rel) →
      main env =
        match get_repo_description env rootRepo with
        | .error e => .error e
        | .ok parent_description =>
          match get_commits_info env rootRepo with
          | .error e => .error e
          | .ok pc =>
            match gather_activity env rootRepo rootRepo 0 2 ("") with
            | .error e => .error e
            | .ok fork_activity =>
              generate_html env (dedupByFullName fork_activity)
                (rootRepo.owner ++ "/" ++ rootRepo.name) pc.1.length pc.2
                (Val.str ("-")) rel parent_description) := by
  refine ⟨?_, rfl, ?_⟩
  · intro parent current depth max_depth path recs hok r hr
    obtain ⟨p, hp⟩ := gather_activity_sound env parent current depth max_depth
      path recs hok r hr
    obtain ⟨_, _, _, issues, rel, h1, h2, h3, h4, h5⟩ := EmitParent_fields env hp
    exact ⟨issues, rel, h1, h2, h4, h3, h5⟩
  · intro rel hri
    unfold main
    rw [hri]
    simp [normalizeIssues]

theorem sentinel_normalization_witness :
    ∃ issues rel,
      get_repo_info envSmall (refOf recSmall.fork) = .ok (issues, rel) ∧
      recSmall.open_issues_count = normalizeIssues issues ∧
      (issues = 0 → recSmall.open_issues_count = Val.str ("-")) ∧
      recSmall.last_release_number = rel ∧
      ((envSmall.releaseLatest (refOf recSmall.fork)).1 ≠ 200 →
        recSmall.last_release_number = "-") :=
  (sentinel_normalization envSmall).1 rootRepo rootRepo 0 2 ("") [recSmall]
    rfl recSmall (by decide)

/-- C8: the output file is written only by a fully successful run — if
`main` fails (any request raised anywhere, during metadata collection, the
tree walk, or the renderer's own requests), no file is written; in
particular a failing tree walk leaves no output, and a non-empty output
implies the full traversal returned successfully. -/
theorem no_partial_output (env : Env) :
    (∀ e, main env = .error e → filesWritten env = []) ∧
    (∀ e, gather_activity env rootRepo rootRepo 0 2 ("") = .error e →
      filesWritten env = []) ∧
    (filesWritten env ≠ [] →
      ∃ recs, gather_activity env rootRepo rootRepo 0 2 ("") = .ok recs ∧
        main env = .ok (filesWritten env)) := by
  refine ⟨?_, ?_, ?_⟩
  · intro e he
    simp [filesWritten, he]
  · intro e he
    cases hm : main env with
    | error e2 => simp [filesWritten, hm]
    | ok ws =>
      obtain ⟨⟨recs, hrecs⟩, _⟩ := main_ok_parts env ws hm
      rw [he] at hrecs
      exact absurd hrecs (by simp)
  · intro hne
    cases hm : main env with
    | error e =>
      exact absurd (by simp [filesWritten, hm]) hne
    | ok ws =>
      obtain ⟨⟨recs, hrecs⟩, _⟩ := main_ok_parts env ws hm
      refine ⟨recs, hrecs, ?_⟩
      simp [filesWritten, hm]

theorem no_partial_output_witness : filesWritten envC8 = [] :=
  (no_partial_output envC8).2.1 Err.http rfl

/-- C9: the sentinel branch guarded by `commits_ahead == 0 and
commits_behind == 0` is unreachable for emitted records — every record
passed the `commits_ahead != 0` filter first — so every emitted record's
last-commit field is produced by `relative_time_from_now` on the fork's
actual last commit date and its issue/release fields come from
`get_repo_info`. -/
theorem dead_sentinel_branch_unreachable (env : Env) (parent current : RepoId)
    (depth max_depth : Nat) (path : String) (recs : List ForkRecord)
    (hok : gather_activity env parent current depth max_depth path = .ok recs) :
    ∀ r ∈ recs, ¬(r.commits_ahead = 0 ∧ r.commits_behind = 0) ∧
      ∃ shas d issues rel,
        get_commits_info env (refOf r.fork) = .ok (shas, some d) ∧
        r.last_commit_date = relative_time_from_now env.now d ∧
        get_repo_info env (refOf r.fork) = .ok (issues, rel) ∧
        r.open_issues_count = normalizeIssues issues ∧
        r.last_release_number = rel := by
  intro r hr
  obtain ⟨p, hp⟩ := gather_activity_sound env parent current depth max_depth
    path recs hok r hr
  obtain ⟨hpos, _, ⟨shas, d, h1, h2⟩, issues, rel, h3, h4, h5, _⟩ :=
    EmitParent_fields env hp
  exact ⟨by omega, shas, d, issues, rel, h1, h2, h3, h4, h5⟩

theorem dead_sentinel_branch_unreachable_witness :
    ¬(recSmall.commits_ahead = 0 ∧ recSmall.commits_behind = 0) ∧
    ∃ shas d issues rel,
      get_commits_info envSmall (refOf recSmall.fork) = .ok (shas, some d) ∧
      recSmall.last_commit_date = relative_time_from_now envSmall.now d ∧
      get_repo_info envSmall (refOf recSmall.fork) = .ok (issues, rel) ∧
      recSmall.open_issues_count = normalizeIssues issues ∧
      recSmall.last_release_number = rel :=
  dead_sentinel_branch_unreachable envSmall rootRepo rootRepo 0 2 ("")
    [recSmall] rfl recSmall (by decide)

/-- C10: an empty commit listing makes `get_commits_info` return `none` as
the last-commit timestamp; applying `relative_time_from_now` to `None`
fails (TypeError); consequently a successful run requires the root
repository to have a commit, and every fork that passed the inclusion
filter to have a commit. -/
theorem report_requires_commits (env : Env) :
    (∀ r pages, env.commitsPages r = .ok pages → pages.flatten = [] →
      get_commits_info env r = .ok ([], none)) ∧
    relOrError env.now none = .error Err.typeError ∧
    (∀ ws, main env = .ok ws →
      ∃ shas d, get_commits_info env rootRepo = .ok (shas, some d)) ∧
    (∀ recs, gather_activity env rootRepo rootRepo 0 2 ("") = .ok recs →
      ∀ r ∈ recs,
        (∃ shas d, get_commits_info env (refOf r.fork) = .ok (shas, some d)) ∧
        ∀ pages, env.commitsPages (refOf r.fork) = .ok pages →
          pages.flatten ≠ []) := by
  refine ⟨?_, rfl, ?_, ?_⟩
  · intro r pages h he
    rw [get_commits_info_of_pages env r pages h, he]
    rfl
  · intro ws hm
    exact (main_ok_parts env ws hm).2
  · intro recs hok r hr
    obtain ⟨p, hp⟩ := gather_activity_sound env rootRepo rootRepo 0 2 ("")
      recs hok r hr
    obtain ⟨_, _, ⟨shas, d, hci, _⟩, _⟩ := EmitParent_fields env hp
    refine ⟨⟨shas, d, hci⟩, ?_⟩
    intro pages hpg hflat
    have h2 := get_commits_info_of_pages env (refOf r.fork) pages hpg
    rw [hflat] at h2
    rw [hci] at h2
    exact absurd h2 (by simp)

theorem report_requires_commits_witness :
    get_commits_info envC10 rootRepo = .ok ([], none) :=
  (report_requires_commits envC10).1 rootRepo [[]] rfl rfl

end GatherActivity
